import Mathlib

/-!
Verification of an on-disk B-tree (`btree.h` / `main.cpp`).

This file gives a shallow embedding of the C++ B-tree in Lean 4 and settles a
frozen list of claims about it.  The embedding models:

* the storage layer (`IDrive`): the backing file as an array of node slots plus
  a byte-length high-water mark, the header mirror, the free-node stack that is
  piggybacked on the `freeNode` field of non-root slots, and the byte-level
  serialization of keys (length prefix, truncation at `keySize`) performed by
  `writeNode` / `readNode`;
* the tree layer (`ITree`): `search`, `insert` with proactive split,
  `remove` with proactive borrow/merge and root collapse; and
* the façade state: the cached header and the cached root node (`m_root`),
  which the C++ code keeps in memory while every other node is re-read from
  disk per operation.  Keeping the cached root distinct from disk slot 0 is
  essential: several code paths update one but not the other.

Keys are byte strings (`List Nat`, each byte `< 256`), compared with the
`std::string` three-way comparison (lexicographic on bytes, then length).
Values are 64-bit naturals.  Machine-integer wraparound is modelled with
explicit `% 2 ^ 32` / `% 2 ^ 64` where the C++ types make it observable.
-/

namespace BTree

/-- A key is a byte string: the contents of the `std::string` key. -/
abbrev Key := List Nat

/-- Three-way comparison of byte strings, as `std::string::operator<=>`
(lexicographic on bytes, a strict prefix is smaller). -/
def keyCmp : Key → Key → Ordering
  | [], [] => .eq
  | [], _ :: _ => .lt
  | _ :: _, [] => .gt
  | a :: as, b :: bs => if a < b then .lt else if b < a then .gt else keyCmp as bs

/-- Insert an element at position `i` of a list (`vector::insert(begin()+i, a)`). -/
def insAt {α : Type} : Nat → α → List α → List α
  | 0, a, l => a :: l
  | _ + 1, a, [] => [a]
  | i + 1, a, x :: l => x :: insAt i a l

/-- Erase the element at position `i` of a list (`vector::erase(begin()+i)`);
out-of-range indices leave the list unchanged. -/
def eraAt {α : Type} : Nat → List α → List α
  | _, [] => []
  | 0, _ :: l => l
  | i + 1, x :: l => x :: eraAt i l

/-- In-memory node value (`BTree::Node`): vectors of live keys, parallel
values, child slot indices, and the free-stack cell read from the slot. -/
structure Node where
  index : Nat
  keys : List Key
  values : List Nat
  kids : List Nat
  freeNode : Nat
  deriving Repr, DecidableEq

/-- The all-zero content of a freshly grown (or never written) node slot. -/
def zeroNode (i : Nat) : Node := ⟨i, [], [], [], 0⟩

/-- The 16-byte file header (`BTree::Header`). -/
structure Header where
  keySize : Nat
  degree : Nat
  keyCount : Nat
  freeNodeCount : Nat
  deriving Repr, DecidableEq

/-- Derived `maxKeysPerNode() = 2 * degree - 1`. -/
def maxKeys (h : Header) : Nat := 2 * h.degree - 1

/-- Derived `maxChildrenPerNode() = 2 * degree`. -/
def maxChildren (h : Header) : Nat := 2 * h.degree

/-- Derived `minKeysPerNode() = degree - 1`. -/
def minKeys (h : Header) : Nat := h.degree - 1

/-- C++ `IDrive::headerSize() = 16`. -/
def headerSize : Nat := 16

/-- C++ `IDrive::nodeSize()`: node header quartet, child array, key slots, values. -/
def nodeSize (h : Header) : Nat :=
  16 + 4 * maxChildren h + (h.keySize + 8) * maxKeys h

/-- C++ `IDrive::nodePos(i) = headerSize + i * nodeSize`. -/
def nodePos (h : Header) (i : Nat) : Nat := headerSize + i * nodeSize h

/-- The façade state: cached header, the backing file viewed as a map from
slot index to node content, the cached root node `m_root`, the in-memory
`m_nodeCount`, and the file's byte length (writes extend it, seeks do not). -/
structure BState where
  header : Header
  disk : Nat → Node
  root : Node
  nodeCount : Nat
  fileLen : Nat

/-- The byte content of one on-disk key slot, as produced by
`IDrive::writeNode`: a one-byte length prefix `(char)key.size()` followed by
the key bytes, resized (padded with zeros or truncated) to `keySize` bytes. -/
def storedKeyBytes (ks : Nat) (k : Key) : List Nat :=
  (((k.length % 256) :: k).take ks) ++ List.replicate (ks - (k.length + 1)) 0

/-- Decoding of one key slot, as performed by `IDrive::readNode`:
`int len = keyBuffer[0]` reads the prefix as a signed `char` (so a stored
length byte `≥ 128` is negative) and `keyBuffer.substr(1, len)` clamps to the
available `keySize - 1` payload bytes; a negative `len` converts to a huge
`size_t`, so `substr` returns the whole payload. -/
def decodeKey (buf : List Nat) : Key :=
  let len := buf.headD 0
  let payload := buf.drop 1
  if len < 128 then payload.take len else payload

/-- The key actually observed after a `writeNode` / `readNode` round trip. -/
def roundtripKey (ks : Nat) (k : Key) : Key := decodeKey (storedKeyBytes ks k)

/-- C++ `IDrive::readNode`: node content of slot `i`, with its `index` field set. -/
def readNode (st : BState) (i : Nat) : Node := { st.disk i with index := i }

/-- The file offset one past the last byte written by `IDrive::writeNode`:
the node header quartet is always written, then only the live prefix of the
child array, of the key slots and of the value array.  Seeks past the end of
the file do not extend it, so a node with no keys extends the file no further
than its child array (or its quartet, if it is an empty leaf). -/
def writeEnd (h : Header) (n : Node) : Nat :=
  let p := nodePos h n.index
  if n.keys.length ≠ 0 then
    p + 16 + 4 * maxChildren h + h.keySize * maxKeys h + 8 * n.keys.length
  else if n.kids.length ≠ 0 then p + 16 + 4 * n.kids.length
  else p + 16

/-- C++ `IDrive::writeNode`: store the node at slot `node.index`.  Key slots go
through the length-prefixed serialization (`storedKeyBytes`), so the content
later observed by `readNode` is `roundtripKey` of each key; counts, children,
values and the `freeNode` cell are stored as written.  The file length grows
to the end of the last positioned write. -/
def writeNode (st : BState) (n : Node) : BState :=
  { st with
    disk := fun j =>
      if j = n.index then { n with keys := n.keys.map (roundtripKey st.header.keySize) }
      else st.disk j
    fileLen := max st.fileLen (writeEnd st.header n) }

/-- C++ `IDrive::writeHeader`: flush the in-memory header mirror to offset 0
(16 bytes). -/
def writeHeader (st : BState) (h : Header) : BState :=
  { st with header := h, fileLen := max st.fileLen 16 }

/-- C++ `IDrive::pushFreeNode(i)`: write `i` into the `freeNode` cell of slot
`1 + freeNodeCount` (a positioned 4-byte write at `nodePos (1+d) + 8`), then
increment `freeNodeCount` and rewrite the header. -/
def pushFreeNode (st : BState) (i : Nat) : BState :=
  let d := st.header.freeNodeCount
  let slot := 1 + d
  let st1 : BState :=
    { st with
      disk := fun j => if j = slot then { st.disk j with freeNode := i } else st.disk j
      fileLen := max st.fileLen (nodePos st.header slot + 12) }
  writeHeader st1 { st1.header with freeNodeCount := d + 1 }

/-- C++ `IDrive::pushNode()`: grow the file by appending `nodeSize / 8` zero
8-byte words at the end of the file, taking `m_nodeCount` (post-incremented)
as the new slot's index, then push the new index onto the free stack.  In the
slot view the appended zero block makes the new slot's content all-zero:
the block starts at the old end of file, which can sit below `nodePos` of the
new slot (earlier slots' tails may never have been written), but every byte
of the new slot below the old end of file was never written and is never
read back, and the counts in the slot's header quartet are covered by the
zero block, so a later `readNode` of the slot observes exactly the all-zero
node. -/
def pushNode (st : BState) : BState :=
  let i := st.nodeCount
  let st1 : BState :=
    { st with
      nodeCount := st.nodeCount + 1
      fileLen := st.fileLen + 8 * (nodeSize st.header / 8)
      disk := fun j => if j = i then zeroNode i else st.disk j }
  pushFreeNode st1 i

/-- C++ `IDrive::popFreeNode()`: grow first if the stack is empty; then read the
`freeNode` cell of slot `freeNodeCount`, decrement the count, rewrite the
header and return the read index. -/
def popFreeNode (st : BState) : Nat × BState :=
  let st1 := if st.header.freeNodeCount = 0 then pushNode st else st
  let d := st1.header.freeNodeCount - 1
  let idx := (st1.disk (1 + d)).freeNode
  (idx, writeHeader st1 { st1.header with freeNodeCount := d })

/-- The constructor's fresh-file path (`BTree::BTree` when `readHeader`
fails): start from an empty file, write the header `{keySize, degree, 0, 0}`
and the empty root node at slot 0; `m_nodeCount = 1`. -/
def mkBTree (keySize degree : Nat) : BState :=
  let st : BState :=
    { header := ⟨keySize, degree, 0, 0⟩
      disk := fun j => zeroNode j
      root := zeroNode 0
      nodeCount := 1
      fileLen := 0 }
  let st := writeHeader st st.header
  writeNode st st.root

/-- C++ `BTree::size() = m_header.keyCount`. -/
def size (st : BState) : Nat := st.header.keyCount

/-- C++ `ITree::findKeyIndex` inner loop: scan the live keys left to right;
stop with `true` on an equal key, with `false` at the first larger key or at
the end. -/
def findKeyIndexAux (key : Key) : List Key → Nat → Bool × Nat
  | [], i => (false, i)
  | k :: ks, i =>
    match keyCmp key k with
    | .eq => (true, i)
    | .lt => (false, i)
    | .gt => findKeyIndexAux key ks (i + 1)

/-- C++ `ITree::findKeyIndex`: `(found, lower-bound index)` of `key` in `node`. -/
def findKeyIndex (node : Node) (key : Key) : Bool × Nat :=
  findKeyIndexAux key node.keys 0

/-- C++ `ITree::search`: iterative descent from `x`; returns the node index and
key position holding `key`.  The C++ loop is unbounded; `fuel` bounds the
descent depth (it only runs out on a cyclic disk, which the C++ code would
never terminate on). -/
def search (st : BState) : Nat → Node → Key → Option (Nat × Nat)
  | 0, _, _ => none
  | fuel + 1, x, key =>
    let (found, i) := findKeyIndex x key
    if found then some (x.index, i)
    else if x.kids = [] then none
    else search st fuel (readNode st (x.kids.getD i 0)) key

/-- C++ `BTree::get`: search from the cached root `m_root`; on a hit, re-read the
holding node from disk and return the value at the found position.  (Note the
re-read: even when the hit is in the cached root, the value returned comes
from disk slot 0, not from `m_root`.) -/
def get (fuel : Nat) (st : BState) (key : Key) : Option Nat :=
  match search st fuel st.root (key.map (· % 256)) with
  | none => none
  | some (ni, ki) => some ((readNode st ni).values.getD ki 0)

/-- C++ `ITree::splitChildNode(x, childIndex)`: split the full child
`y = x.kids[childIndex]` around the median `y.keys[degree-1]`, which moves up
into `x`; the upper half moves into a node `z` popped from the free stack,
which is linked in at `childIndex + 1`.  Writes `x`, `y`, `z`; returns the
updated parent and state. -/
def splitChildNode (st : BState) (x : Node) (childIndex : Nat) : Node × BState :=
  let degree := st.header.degree
  let splitIndex := degree - 1
  let (zIndex, st) := popFreeNode st
  let z := readNode st zIndex
  let y := readNode st (x.kids.getD childIndex 0)
  let x := { x with
    kids := insAt (childIndex + 1) zIndex x.kids
    keys := insAt childIndex (y.keys.getD splitIndex []) x.keys
    values := insAt childIndex (y.values.getD splitIndex 0) x.values }
  let z := { z with
    keys := z.keys ++ (y.keys.drop degree).take splitIndex
    values := z.values ++ (y.values.drop degree).take splitIndex }
  let (y, z) :=
    if y.kids ≠ [] then
      ({ y with kids := y.kids.take degree },
       { z with kids := z.kids ++ (y.kids.drop degree).take degree })
    else (y, z)
  let y := { y with keys := y.keys.take splitIndex, values := y.values.take splitIndex }
  let st := writeNode st x
  let st := writeNode st y
  let st := writeNode st z
  (x, st)

/-- The right-to-left scan of `ITree::insertNonfull` (`i = x.n - 1` downward):
`inl i` means `key` equals `keys[i]`; `inr pos` is the insertion position
(`index + 1` after the loop).  The argument is the current index plus one, so
`0` means the scan ran off the left end. -/
def leafScan (keys : List Key) (key : Key) : Nat → Sum Nat Nat
  | 0 => .inr 0
  | i + 1 =>
    match keyCmp key (keys.getD i []) with
    | .eq => .inl i
    | .gt => .inr (i + 1)
    | .lt => leafScan keys key i

/-- C++ `ITree::insertNonfull(Node &, key, value)`: returns (inserted?, updated
node, state).  Leaf case: overwrite in place (writing the node, returning
false) or insert in order (writing node, bumping the 32-bit header key count).
Internal case: an equal separator is overwritten in place — the C++ code
returns false *without writing the node back*; otherwise split a full child
and recurse into the child re-read from disk by index (the recursive C++ call
goes through the `NodeIndex` overload). -/
def insertNonfull (st : BState) (x : Node) (key : Key) (value : Nat) :
    Nat → Bool × Node × BState
  | 0 => (false, x, st)
  | fuel + 1 =>
    if x.kids = [] then
      match leafScan x.keys key x.keys.length with
      | .inl i =>
        let x := { x with values := x.values.set i value }
        (false, x, writeNode st x)
      | .inr pos =>
        let x := { x with
          keys := insAt pos key x.keys
          values := insAt pos value x.values }
        let st := writeNode st x
        let st := writeHeader st
          { st.header with keyCount := (st.header.keyCount + 1) % 2 ^ 32 }
        (true, x, st)
    else
      match leafScan x.keys key x.keys.length with
      | .inl i =>
        -- overwrite of an existing separator: value updated only in memory
        (false, { x with values := x.values.set i value }, st)
      | .inr pos =>
        let child := readNode st (x.kids.getD pos 0)
        let (x, pos, st) :=
          if child.keys.length = maxKeys st.header then
            let (x, st) := splitChildNode st x pos
            let pos := if keyCmp key (x.keys.getD pos []) = .gt then pos + 1 else pos
            (x, pos, st)
          else (x, pos, st)
        let cnode := readNode st (x.kids.getD pos 0)
        let (r, _, st) := insertNonfull st cnode key value fuel
        (r, x, st)

/-- C++ `ITree::insert`: root preamble (if the cached root is full, copy it into
a freshly popped slot `s`, empty the root, make `s` its only child, write
both, split child 0 — the only way tree height grows), then `insertNonfull`
on the root.  The updated root node is stored back into the cached mirror. -/
def insertTop (st : BState) (key : Key) (value : Nat) (fuel : Nat) : Bool × BState :=
  let st :=
    if st.root.keys.length = maxKeys st.header then
      let (ni, st) := popFreeNode st
      let s := readNode st ni
      let s := { s with keys := st.root.keys, values := st.root.values, kids := st.root.kids }
      let st := writeNode st s
      let root := { st.root with keys := [], values := [], kids := [ni] }
      let st := writeNode st root
      let (root, st) := splitChildNode st root 0
      { st with root := root }
    else st
  let (r, root, st) := insertNonfull st st.root key value fuel
  (r, { st with root := root })

/-- C++ `BTree::put`: the key bytes come from a `std::string` (each `< 256`) and
the value is a `uint64_t`. -/
def put (fuel : Nat) (st : BState) (key : Key) (value : Nat) : Bool × BState :=
  insertTop st (key.map (· % 256)) (value % 2 ^ 64) fuel

/-- C++ `ITree::removeNodeKey(node, keyIndex, key, value)`: take out the key and
value at `keyIndex`, write the node, decrement the 32-bit header key count
and rewrite the header.  Returns the removed pair with the updated node. -/
def removeNodeKey (st : BState) (node : Node) (keyIndex : Nat) :
    (Key × Nat) × Node × BState :=
  let k := node.keys.getD keyIndex []
  let v := node.values.getD keyIndex 0
  let node := { node with
    keys := eraAt keyIndex node.keys
    values := eraAt keyIndex node.values }
  let st := writeNode st node
  let st := writeHeader st
    { st.header with keyCount := (st.header.keyCount + 2 ^ 32 - 1) % 2 ^ 32 }
  ((k, v), node, st)

/-- C++ `ITree::growChild` borrow-from-left rotation: the parent separator at
`index - 1` moves down as the child's first key/value, the left sibling's
last key/value moves up into the parent, and (for internal siblings) the left
sibling's last child pointer becomes the child's first.  Writes left sibling,
child, parent. -/
def borrowFromLeft (st : BState) (node child leftChild : Node) (index : Nat) :
    Node × BState :=
  let child := { child with
    keys := node.keys.getD (index - 1) [] :: child.keys
    values := node.values.getD (index - 1) 0 :: child.values }
  let node := { node with
    keys := node.keys.set (index - 1) (leftChild.keys.getD (leftChild.keys.length - 1) [])
    values := node.values.set (index - 1) (leftChild.values.getD (leftChild.values.length - 1) 0) }
  let lkids := leftChild.kids
  let leftChild := { leftChild with
    keys := leftChild.keys.dropLast
    values := leftChild.values.dropLast }
  let (child, leftChild) :=
    if lkids ≠ [] then
      ({ child with kids := lkids.getD (lkids.length - 1) 0 :: child.kids },
       { leftChild with kids := lkids.dropLast })
    else (child, leftChild)
  let st := writeNode st leftChild
  let st := writeNode st child
  let st := writeNode st node
  (node, st)

/-- C++ `ITree::growChild` borrow-from-right rotation (mirror image of
`borrowFromLeft`, using the separator at `index`). -/
def borrowFromRight (st : BState) (node child rightChild : Node) (index : Nat) :
    Node × BState :=
  let child := { child with
    keys := child.keys ++ [node.keys.getD index []]
    values := child.values ++ [node.values.getD index 0] }
  let node := { node with
    keys := node.keys.set index (rightChild.keys.headD [])
    values := node.values.set index (rightChild.values.headD 0) }
  let rkids := rightChild.kids
  let rightChild := { rightChild with
    keys := rightChild.keys.tail
    values := rightChild.values.tail }
  let (child, rightChild) :=
    if rkids ≠ [] then
      ({ child with kids := child.kids ++ [rkids.headD 0] },
       { rightChild with kids := rkids.tail })
    else (child, rightChild)
  let st := writeNode st rightChild
  let st := writeNode st child
  let st := writeNode st node
  (node, st)

/-- C++ `ITree::growChild` merge: append the parent separator at `index` and the
whole right node onto the left node, drop the separator and the right child
pointer from the parent, clear the right node, write right, left and parent,
and push the right node's index onto the free stack. -/
def mergeChildren (st : BState) (node left right : Node) (index : Nat) :
    Node × BState :=
  let left := { left with
    keys := left.keys ++ [node.keys.getD index []]
    values := left.values ++ [node.values.getD index 0] }
  let node := { node with
    keys := eraAt index node.keys
    values := eraAt index node.values
    kids := eraAt (index + 1) node.kids }
  let left := { left with
    keys := left.keys ++ right.keys
    values := left.values ++ right.values
    kids := left.kids ++ right.kids }
  let right := { right with keys := [], values := [], kids := [] }
  let st := writeNode st right
  let st := writeNode st left
  let st := writeNode st node
  let st := pushFreeNode st right.index
  (node, st)

/-- C++ `ITree::growChild(node, child, index)`: make `child` safe to descend into
by borrowing from the left sibling, else from the right sibling, else merging
with a sibling (preferring the right one; at the right edge the merge uses
index `index - 1` with the left sibling).  Sibling reads are pure, so they are
hoisted here; the C++ code reads each sibling inside its `try` branch and the
merge reuses exactly the sibling its branch had read.  `index < kids.length -
1` matches the C++ `size_t` test because `growChild` is only called on
internal nodes (`kids ≠ []`).  Returns the updated parent and the state. -/
def growChild (st : BState) (node child : Node) (index : Nat) : Node × BState :=
  let minK := minKeys st.header
  let notLeftMost := 0 < index
  let notRightMost := index < node.kids.length - 1
  let leftChild :=
    if notLeftMost then readNode st (node.kids.getD (index - 1) 0) else zeroNode 0
  let rightChild :=
    if notRightMost then readNode st (node.kids.getD (index + 1) 0) else zeroNode 0
  if notLeftMost ∧ minK < leftChild.keys.length then
    borrowFromLeft st node child leftChild index
  else if notRightMost ∧ minK < rightChild.keys.length then
    borrowFromRight st node child rightChild index
  else if notRightMost then
    mergeChildren st node child rightChild index
  else
    mergeChildren st node leftChild child (index - 1)

/-- C++ `ITree::removeMax(node, key, value)`: remove the maximum key of the
subtree rooted at `node` and return the removed pair.  On a leaf it removes
the last key; on an internal node it first grows the last child if it is at
`minKeys` (restarting on the same node), then recurses into the last child
(whose updated copy the C++ code discards).  The C++ `uint32_t` index
arithmetic `(n - 1) + 1` wraps to `n` for every `n < 2^32`, so the last-child
index is just `node.keys.length`. -/
def removeMax (st : BState) (node : Node) : Nat → (Key × Nat) × Node × BState
  | 0 => (([], 0), node, st)
  | fuel + 1 =>
    if node.kids = [] then
      removeNodeKey st node (node.keys.length - 1)
    else
      let index := node.keys.length
      let child := readNode st (node.kids.getD index 0)
      if child.keys.length ≤ minKeys st.header then
        let (node, st) := growChild st node child index
        removeMax st node fuel
      else
        let (kv, _, st) := removeMax st child fuel
        (kv, node, st)

/-- C++ `ITree::removeKey(node, key, value)`: descend for `key` from `node`.
Leaf: remove on a hit, else report absent.  Internal: grow an unsafe child
and restart on the same node; on a hit at a separator, capture the value,
steal the predecessor pair from the left child via `removeMax` and overwrite
the separator — the C++ code updates `node` only in memory here and never
writes it back; otherwise recurse into the child (whose updated copy is
discarded).  Returns (removed value?, updated node, state). -/
def removeKey (st : BState) (node : Node) (key : Key) :
    Nat → Option Nat × Node × BState
  | 0 => (none, node, st)
  | fuel + 1 =>
    let (hasKey, index) := findKeyIndex node key
    if node.kids = [] then
      if hasKey then
        let ((_, v), node, st) := removeNodeKey st node index
        (some v, node, st)
      else (none, node, st)
    else
      let child := readNode st (node.kids.getD index 0)
      if child.keys.length ≤ minKeys st.header then
        let (node, st) := growChild st node child index
        removeKey st node key fuel
      else if hasKey then
        let v := node.values.getD index 0
        let ((k2, v2), _, st) := removeMax st child fuel
        let node := { node with
          keys := node.keys.set index k2
          values := node.values.set index v2 }
        (some v, node, st)
      else
        let (r, _, st) := removeKey st child key fuel
        (r, node, st)

/-- The root-collapse epilogue of `ITree::remove`: when the cached root ends
an operation with no keys but a child, load that (single) child's contents
into the root slot, write the emptied child and the root, and push the
child's index onto the free stack. -/
def rootCollapse (st : BState) : BState :=
  if st.root.index = 0 ∧ st.root.keys = [] ∧ st.root.kids ≠ [] then
    let child := readNode st (st.root.kids.getD 0 0)
    let root := { st.root with keys := child.keys, values := child.values, kids := child.kids }
    let child := { child with keys := [], values := [], kids := [] }
    let st := writeNode st child
    let st := writeNode st root
    let st := pushFreeNode st child.index
    { st with root := root }
  else st

/-- C++ `ITree::remove` on the cached root: `removeKey`, store the updated root
mirror, then the root-collapse epilogue. -/
def removeTop (st : BState) (key : Key) (fuel : Nat) : Option Nat × BState :=
  let (res, root, st) := removeKey st st.root key fuel
  (res, rootCollapse { st with root := root })

/-- C++ `BTree::remove`: key bytes come from a `std::string` (each `< 256`). -/
def remove (fuel : Nat) (st : BState) (key : Key) : Option Nat × BState :=
  removeTop st (key.map (· % 256)) fuel

/-! ### Byte-level model of the integer codecs (`IDrive::write32/64`, `read32/64`)

`fwrite`/`fread` transfer the in-memory representation of the integer, which
depends on the host's endianness; `write32`/`write64` additionally apply
`_byteswap_ulong`/`_byteswap_uint64` *when the host is big-endian*
(`isBigEndian()`), and the reads apply the same conditional swap after
`fread`. -/

/-- C++ `_byteswap_ulong`: reverse the four bytes of a 32-bit value. -/
def bswap32 (v : Nat) : Nat :=
  v % 256 * 2 ^ 24 + v / 2 ^ 8 % 256 * 2 ^ 16 + v / 2 ^ 16 % 256 * 2 ^ 8 + v / 2 ^ 24 % 256

/-- C++ `_byteswap_uint64`: reverse the eight bytes of a 64-bit value. -/
def bswap64 (v : Nat) : Nat :=
  v % 256 * 2 ^ 56 + v / 2 ^ 8 % 256 * 2 ^ 48 + v / 2 ^ 16 % 256 * 2 ^ 40 +
    v / 2 ^ 24 % 256 * 2 ^ 32 + v / 2 ^ 32 % 256 * 2 ^ 24 + v / 2 ^ 40 % 256 * 2 ^ 16 +
    v / 2 ^ 48 % 256 * 2 ^ 8 + v / 2 ^ 56 % 256

/-- The little-endian byte string of a 32-bit value. -/
def leBytes32 (v : Nat) : List Nat :=
  [v % 256, v / 2 ^ 8 % 256, v / 2 ^ 16 % 256, v / 2 ^ 24 % 256]

/-- The big-endian byte string of a 32-bit value. -/
def beBytes32 (v : Nat) : List Nat :=
  [v / 2 ^ 24 % 256, v / 2 ^ 16 % 256, v / 2 ^ 8 % 256, v % 256]

/-- The little-endian byte string of a 64-bit value. -/
def leBytes64 (v : Nat) : List Nat :=
  [v % 256, v / 2 ^ 8 % 256, v / 2 ^ 16 % 256, v / 2 ^ 24 % 256,
   v / 2 ^ 32 % 256, v / 2 ^ 40 % 256, v / 2 ^ 48 % 256, v / 2 ^ 56 % 256]

/-- The big-endian byte string of a 64-bit value. -/
def beBytes64 (v : Nat) : List Nat :=
  [v / 2 ^ 56 % 256, v / 2 ^ 48 % 256, v / 2 ^ 40 % 256, v / 2 ^ 32 % 256,
   v / 2 ^ 24 % 256, v / 2 ^ 16 % 256, v / 2 ^ 8 % 256, v % 256]

/-- In-memory representation of a `uint32_t` on a host of the given
endianness — what `fwrite(&value, 4, 1, f)` puts in the file. -/
def memBytes32 (hostBE : Bool) (v : Nat) : List Nat :=
  if hostBE then beBytes32 v else leBytes32 v

/-- In-memory representation of a `uint64_t` on a host of the given
endianness. -/
def memBytes64 (hostBE : Bool) (v : Nat) : List Nat :=
  if hostBE then beBytes64 v else leBytes64 v

/-- The value a host of the given endianness reads back from four memory
bytes — what `fread(&value, 4, 1, f)` leaves in `value`. -/
def memVal32 (hostBE : Bool) (bs : List Nat) : Nat :=
  if hostBE then
    bs.getD 0 0 * 2 ^ 24 + bs.getD 1 0 * 2 ^ 16 + bs.getD 2 0 * 2 ^ 8 + bs.getD 3 0
  else
    bs.getD 0 0 + bs.getD 1 0 * 2 ^ 8 + bs.getD 2 0 * 2 ^ 16 + bs.getD 3 0 * 2 ^ 24

/-- The value a host of the given endianness reads back from eight memory
bytes. -/
def memVal64 (hostBE : Bool) (bs : List Nat) : Nat :=
  if hostBE then
    bs.getD 0 0 * 2 ^ 56 + bs.getD 1 0 * 2 ^ 48 + bs.getD 2 0 * 2 ^ 40 +
      bs.getD 3 0 * 2 ^ 32 + bs.getD 4 0 * 2 ^ 24 + bs.getD 5 0 * 2 ^ 16 +
      bs.getD 6 0 * 2 ^ 8 + bs.getD 7 0
  else
    bs.getD 0 0 + bs.getD 1 0 * 2 ^ 8 + bs.getD 2 0 * 2 ^ 16 + bs.getD 3 0 * 2 ^ 24 +
      bs.getD 4 0 * 2 ^ 32 + bs.getD 5 0 * 2 ^ 40 + bs.getD 6 0 * 2 ^ 48 +
      bs.getD 7 0 * 2 ^ 56

/-- C++ `IDrive::write32`: byte-swap when the host is big-endian, then `fwrite`
the in-memory representation. -/
def write32Bytes (hostBE : Bool) (v : Nat) : List Nat :=
  memBytes32 hostBE (if hostBE then bswap32 v else v)

/-- C++ `IDrive::write64`: byte-swap when the host is big-endian, then `fwrite`. -/
def write64Bytes (hostBE : Bool) (v : Nat) : List Nat :=
  memBytes64 hostBE (if hostBE then bswap64 v else v)

/-- C++ `IDrive::read32`: `fread` into memory, then byte-swap when the host is
big-endian. -/
def read32Val (hostBE : Bool) (bs : List Nat) : Nat :=
  if hostBE then bswap32 (memVal32 hostBE bs) else memVal32 hostBE bs

/-- C++ `IDrive::read64`: `fread`, then byte-swap when the host is big-endian. -/
def read64Val (hostBE : Bool) (bs : List Nat) : Nat :=
  if hostBE then bswap64 (memVal64 hostBE bs) else memVal64 hostBE bs

/-! ### Spec-side predicate and concrete scenario states -/

/-- The file-length shape stated by the spec (and relied on by the
`(end - begin) % nodeSize() == 0` assertion inside `IDrive::nodeCount`):
the backing file's length is `16 + nc * node_size` for some `nc ≥ 1`. -/
def specFileLength (st : BState) : Prop :=
  ∃ nc, 1 ≤ nc ∧ st.fileLen = headerSize + nc * nodeSize st.header

/-- A node either is a leaf or has one more child than keys (the per-node
shape invariant `child_count = key_count + 1`). -/
def nodeWF (n : Node) : Prop := n.kids = [] ∨ n.kids.length = n.keys.length + 1

/-- Fresh tree with `keySize = 8`, `degree = 2` after
`put "a" 1; put "b" 2; put "c" 3; put "d" 4`: the root holds the separator
`"b"` with leaf children `["a"]` and `["c","d"]` (scenario S3 of the spec). -/
def stABCD : BState :=
  (put 30 (put 30 (put 30 (put 30 (mkBTree 8 2) [97] 1).2 [98] 2).2 [99] 3).2 [100] 4).2

/-- State `stABCD` continued with `put "e" 5 … put "i" 9`: a height-three tree
whose root `["d"]` has internal children `5 = ["b"]` and `6 = ["f"]`. -/
def stAtoI : BState :=
  (put 30 (put 30 (put 30 (put 30 (put 30 stABCD [101] 5).2 [102] 6).2
    [103] 7).2 [104] 8).2 [105] 9).2

/-- State `stABCD` then `put "aa" 50`: `"aa"` sits in leaf 1 next to `"a"`. -/
def stC1pre : BState := (put 30 stABCD [97, 97] 50).2

/-- State `stAtoI` then `put "ea" 10`: `"ea"` sits in leaf 3 next to `"e"`,
making the left child of separator `"f"` larger than `minKeys`. -/
def stC3pre : BState := (put 30 stAtoI [101, 97] 10).2

/-- State `stABCD` then `put "b" 99` (the internal-separator overwrite, which the
code performs only on the cached root) then `remove "d"` (shrinking child 2
to `["c"]`). -/
def stC10pre : BState := (remove 30 (put 30 stABCD [98] 99).2 [100]).2

/-- State `stABCD` then `remove "d"`: root `["b"]` with leaf children `["a"]` and
`["c"]`, both at `minKeys` — the next remove merges and collapses the root. -/
def stC7pre : BState := (remove 30 stABCD [100]).2

/-- Strict lexicographic increase of a key list — the per-node ordering
invariant. -/
def strictlyIncreasing : List Key → Bool
  | [] => true
  | [_] => true
  | a :: b :: t => (keyCmp a b == Ordering.lt) && strictlyIncreasing (b :: t)

/-- Fresh tree with `keySize = 8`, `degree = 2` after putting the four 8-byte
keys `"aaaaaaaa"`, `"aaaaaaab"`, `"aaaaaaac"`, `"aaaaaaad"` (all one byte over
the `keySize - 1` limit): the fourth put splits the root, and every key slot
written to disk is truncated to the same 7 bytes `"aaaaaaa"`. -/
def stC8pre : BState :=
  (put 30 (put 30 (put 30 (put 30 (mkBTree 8 2)
    [97, 97, 97, 97, 97, 97, 97, 97] 1).2
    [97, 97, 97, 97, 97, 97, 97, 98] 2).2
    [97, 97, 97, 97, 97, 97, 97, 99] 3).2
    [97, 97, 97, 97, 97, 97, 97, 100] 4).2

/-! ## Helper lemmas -/

/-- Applying `bswap32` to an explicit byte decomposition reverses the digits. -/
theorem bswap32_digits (b0 b1 b2 b3 : Nat) (h0 : b0 < 256) (h1 : b1 < 256)
    (h2 : b2 < 256) (h3 : b3 < 256) :
    bswap32 (b0 + 2 ^ 8 * b1 + 2 ^ 16 * b2 + 2 ^ 24 * b3) =
      b3 + 2 ^ 8 * b2 + 2 ^ 16 * b1 + 2 ^ 24 * b0 := by
  simp only [bswap32]
  omega

/-- Applying `beBytes32` to an explicit byte decomposition. -/
theorem beBytes32_digits (b0 b1 b2 b3 : Nat) (h0 : b0 < 256) (h1 : b1 < 256)
    (h2 : b2 < 256) (h3 : b3 < 256) :
    beBytes32 (b0 + 2 ^ 8 * b1 + 2 ^ 16 * b2 + 2 ^ 24 * b3) = [b3, b2, b1, b0] := by
  simp only [beBytes32, List.cons.injEq, and_true]
  omega

/-- Applying `leBytes32` to an explicit byte decomposition. -/
theorem leBytes32_digits (b0 b1 b2 b3 : Nat) (h0 : b0 < 256) (h1 : b1 < 256)
    (h2 : b2 < 256) (h3 : b3 < 256) :
    leBytes32 (b0 + 2 ^ 8 * b1 + 2 ^ 16 * b2 + 2 ^ 24 * b3) = [b0, b1, b2, b3] := by
  simp only [leBytes32, List.cons.injEq, and_true]
  omega

/-- Applying `bswap64` to an explicit byte decomposition reverses the digits. -/
theorem bswap64_digits (b0 b1 b2 b3 b4 b5 b6 b7 : Nat) (h0 : b0 < 256) (h1 : b1 < 256)
    (h2 : b2 < 256) (h3 : b3 < 256) (h4 : b4 < 256) (h5 : b5 < 256) (h6 : b6 < 256)
    (h7 : b7 < 256) :
    bswap64 (b0 + 2 ^ 8 * b1 + 2 ^ 16 * b2 + 2 ^ 24 * b3 + 2 ^ 32 * b4 + 2 ^ 40 * b5 +
        2 ^ 48 * b6 + 2 ^ 56 * b7) =
      b7 + 2 ^ 8 * b6 + 2 ^ 16 * b5 + 2 ^ 24 * b4 + 2 ^ 32 * b3 + 2 ^ 40 * b2 +
        2 ^ 48 * b1 + 2 ^ 56 * b0 := by
  simp only [bswap64]
  omega

/-- Applying `beBytes64` to an explicit byte decomposition. -/
theorem beBytes64_digits (b0 b1 b2 b3 b4 b5 b6 b7 : Nat) (h0 : b0 < 256) (h1 : b1 < 256)
    (h2 : b2 < 256) (h3 : b3 < 256) (h4 : b4 < 256) (h5 : b5 < 256) (h6 : b6 < 256)
    (h7 : b7 < 256) :
    beBytes64 (b0 + 2 ^ 8 * b1 + 2 ^ 16 * b2 + 2 ^ 24 * b3 + 2 ^ 32 * b4 + 2 ^ 40 * b5 +
        2 ^ 48 * b6 + 2 ^ 56 * b7) = [b7, b6, b5, b4, b3, b2, b1, b0] := by
  simp only [beBytes64, List.cons.injEq, and_true]
  omega

/-- Applying `leBytes64` to an explicit byte decomposition. -/
theorem leBytes64_digits (b0 b1 b2 b3 b4 b5 b6 b7 : Nat) (h0 : b0 < 256) (h1 : b1 < 256)
    (h2 : b2 < 256) (h3 : b3 < 256) (h4 : b4 < 256) (h5 : b5 < 256) (h6 : b6 < 256)
    (h7 : b7 < 256) :
    leBytes64 (b0 + 2 ^ 8 * b1 + 2 ^ 16 * b2 + 2 ^ 24 * b3 + 2 ^ 32 * b4 + 2 ^ 40 * b5 +
        2 ^ 48 * b6 + 2 ^ 56 * b7) = [b0, b1, b2, b3, b4, b5, b6, b7] := by
  simp only [leBytes64, List.cons.injEq, and_true]
  omega

/-- A key of length 8..127 survives the `writeNode`/`readNode` serialization
of a `keySize = 8` slot as its first 7 bytes: the length prefix is the true
length, but the payload was truncated to `keySize - 1` bytes, and `substr`
clamps. -/
theorem roundtripKey_overlong (k : Key) (h1 : 8 ≤ k.length) (h2 : k.length ≤ 127) :
    roundtripKey 8 k = k.take 7 := by
  have hm : k.length % 256 = k.length := Nat.mod_eq_of_lt (by omega)
  have hrep : 8 - (k.length + 1) = 0 := by omega
  simp only [roundtripKey, storedKeyBytes, decodeKey, hm, hrep, List.replicate_zero,
    List.append_nil, List.take_succ_cons, List.headD_cons, List.drop_succ_cons,
    List.drop_zero, List.take_take]
  rw [if_pos (by omega)]
  congr 1
  omega

/-! ## Claims -/

/-- C1.  The round-trip claim fails on the code: with `keySize = 8`,
`degree = 2`, after `put a 1; put b 2; put c 3; put d 4; put aa 50` the key
`"aa"` (bytes `[97,97]`) was inserted fresh (`put` returned `true`) and is
never removed or overwritten afterwards; `remove "b"` correctly returns
`some 2`, but it replaces the root separator `"b"` by `"aa"` only in the
cached root — `removeKey`'s `removeMax` path never writes the parent node —
so `get "aa"` afterwards re-reads stale disk slot 0 and returns `"b"`'s old
value `2` instead of `50`. -/
theorem c1_roundTrip_violated :
    (put 30 stABCD [97, 97] 50).1 = true ∧
      (remove 30 stC1pre [98]).1 = some 2 ∧
      get 30 (remove 30 stC1pre [98]).2 [97, 97] = some 2 := by
  decide

/-- C2.  Overwriting a key that lives as a separator in an internal node is
not persisted: after `put a 1 … put d 4` (root `["b"]` is internal),
`put b 7` returns `false` and leaves `size` unchanged as claimed, and it does
set the cached root's value to `7` — but `insertNonfull` does not write the
node back, so `get b` (which re-reads slot 0 from disk) still returns the old
value `2`, not `7`. -/
theorem c2_overwrite_not_persisted :
    (put 30 stABCD [98] 7).1 = false ∧
      size (put 30 stABCD [98] 7).2 = size stABCD ∧
      (put 30 stABCD [98] 7).2.root.values.getD 0 0 = 7 ∧
      get 30 (put 30 stABCD [98] 7).2 [98] = some 2 := by
  decide

/-- C3.  `remove` can leave the removed key still reachable: in the
height-three tree `stC3pre`, `remove "f"` returns the correct previous value
`some 6`, but the separator replacement done by `removeMax` inside node 5 is
never written to disk; the subsequent root collapse reloads the stale node 5,
so `get "f"` still returns `some 6` instead of being absent. -/
theorem c3_removed_key_still_present :
    (remove 30 stC3pre [102]).1 = some 6 ∧
      get 30 (remove 30 stC3pre [102]).2 [102] = some 6 := by
  decide

/-- C4, counterexample.  The bytes produced by `write32`/`write64` are not
the big-endian encoding on either a little-endian or a big-endian host
(the conditional byte swap runs on big-endian hosts, yielding a little-endian
file everywhere). -/
theorem c4_bigEndian_refuted :
    write32Bytes false 1 ≠ beBytes32 1 ∧ write32Bytes true 1 ≠ beBytes32 1 ∧
      write64Bytes false 1 ≠ beBytes64 1 ∧ write64Bytes true 1 ≠ beBytes64 1 := by
  decide

/-- C4, amended.  For every 32-bit and 64-bit value, the bytes written by
`write32`/`write64` are the *little-endian* encoding of the value,
irrespective of host endianness, and `read32`/`read64` invert them exactly. -/
theorem c4_littleEndian_codec (hostBE : Bool) (v w : Nat) (hv : v < 2 ^ 32)
    (hw : w < 2 ^ 64) :
    write32Bytes hostBE v = leBytes32 v ∧
      read32Val hostBE (write32Bytes hostBE v) = v ∧
      write64Bytes hostBE w = leBytes64 w ∧
      read64Val hostBE (write64Bytes hostBE w) = w := by
  obtain ⟨b0, b1, b2, b3, h0, h1, h2, h3, rfl⟩ :
      ∃ b0 b1 b2 b3, b0 < 256 ∧ b1 < 256 ∧ b2 < 256 ∧ b3 < 256 ∧
        v = b0 + 2 ^ 8 * b1 + 2 ^ 16 * b2 + 2 ^ 24 * b3 :=
    ⟨v % 2 ^ 8, v / 2 ^ 8 % 2 ^ 8, v / 2 ^ 16 % 2 ^ 8, v / 2 ^ 24,
      by omega, by omega, by omega, by omega, by omega⟩
  obtain ⟨c0, c1, c2, c3, c4, c5, c6, c7, g0, g1, g2, g3, g4, g5, g6, g7, rfl⟩ :
      ∃ c0 c1 c2 c3 c4 c5 c6 c7, c0 < 256 ∧ c1 < 256 ∧ c2 < 256 ∧ c3 < 256 ∧
        c4 < 256 ∧ c5 < 256 ∧ c6 < 256 ∧ c7 < 256 ∧
        w = c0 + 2 ^ 8 * c1 + 2 ^ 16 * c2 + 2 ^ 24 * c3 + 2 ^ 32 * c4 + 2 ^ 40 * c5 +
          2 ^ 48 * c6 + 2 ^ 56 * c7 :=
    ⟨w % 2 ^ 8, w / 2 ^ 8 % 2 ^ 8, w / 2 ^ 16 % 2 ^ 8, w / 2 ^ 24 % 2 ^ 8,
      w / 2 ^ 32 % 2 ^ 8, w / 2 ^ 40 % 2 ^ 8, w / 2 ^ 48 % 2 ^ 8, w / 2 ^ 56,
      by omega, by omega, by omega, by omega, by omega, by omega, by omega, by omega,
      by omega⟩
  have hw32 : write32Bytes hostBE (b0 + 2 ^ 8 * b1 + 2 ^ 16 * b2 + 2 ^ 24 * b3) =
      [b0, b1, b2, b3] := by
    cases hostBE with
    | false =>
      show leBytes32 _ = _
      exact leBytes32_digits b0 b1 b2 b3 h0 h1 h2 h3
    | true =>
      show beBytes32 (bswap32 _) = _
      rw [bswap32_digits b0 b1 b2 b3 h0 h1 h2 h3, beBytes32_digits b3 b2 b1 b0 h3 h2 h1 h0]
  have hw64 : write64Bytes hostBE (c0 + 2 ^ 8 * c1 + 2 ^ 16 * c2 + 2 ^ 24 * c3 +
      2 ^ 32 * c4 + 2 ^ 40 * c5 + 2 ^ 48 * c6 + 2 ^ 56 * c7) =
      [c0, c1, c2, c3, c4, c5, c6, c7] := by
    cases hostBE with
    | false =>
      show leBytes64 _ = _
      exact leBytes64_digits c0 c1 c2 c3 c4 c5 c6 c7 g0 g1 g2 g3 g4 g5 g6 g7
    | true =>
      show beBytes64 (bswap64 _) = _
      rw [bswap64_digits c0 c1 c2 c3 c4 c5 c6 c7 g0 g1 g2 g3 g4 g5 g6 g7,
        beBytes64_digits c7 c6 c5 c4 c3 c2 c1 c0 g7 g6 g5 g4 g3 g2 g1 g0]
  refine ⟨hw32.trans (leBytes32_digits b0 b1 b2 b3 h0 h1 h2 h3).symm, ?_,
    hw64.trans (leBytes64_digits c0 c1 c2 c3 c4 c5 c6 c7 g0 g1 g2 g3 g4 g5 g6 g7).symm, ?_⟩
  · rw [hw32]
    cases hostBE with
    | false =>
      show b0 + b1 * 2 ^ 8 + b2 * 2 ^ 16 + b3 * 2 ^ 24 = _
      ring
    | true =>
      show bswap32 (b0 * 2 ^ 24 + b1 * 2 ^ 16 + b2 * 2 ^ 8 + b3) = _
      have he : b0 * 2 ^ 24 + b1 * 2 ^ 16 + b2 * 2 ^ 8 + b3 =
          b3 + 2 ^ 8 * b2 + 2 ^ 16 * b1 + 2 ^ 24 * b0 := by ring
      rw [he, bswap32_digits b3 b2 b1 b0 h3 h2 h1 h0]
  · rw [hw64]
    cases hostBE with
    | false =>
      show c0 + c1 * 2 ^ 8 + c2 * 2 ^ 16 + c3 * 2 ^ 24 + c4 * 2 ^ 32 + c5 * 2 ^ 40 +
        c6 * 2 ^ 48 + c7 * 2 ^ 56 = _
      ring
    | true =>
      show bswap64 (c0 * 2 ^ 56 + c1 * 2 ^ 48 + c2 * 2 ^ 40 + c3 * 2 ^ 32 + c4 * 2 ^ 24 +
        c5 * 2 ^ 16 + c6 * 2 ^ 8 + c7) = _
      have he : c0 * 2 ^ 56 + c1 * 2 ^ 48 + c2 * 2 ^ 40 + c3 * 2 ^ 32 + c4 * 2 ^ 24 +
          c5 * 2 ^ 16 + c6 * 2 ^ 8 + c7 =
          c7 + 2 ^ 8 * c6 + 2 ^ 16 * c5 + 2 ^ 24 * c4 + 2 ^ 32 * c3 + 2 ^ 40 * c2 +
            2 ^ 48 * c1 + 2 ^ 56 * c0 := by ring
      rw [he, bswap64_digits c7 c6 c5 c4 c3 c2 c1 c0 g7 g6 g5 g4 g3 g2 g1 g0]

/-- C4, amended, witness at `hostBE = true`, `v = w = 258`. -/
theorem c4_littleEndian_codec_witness :
    write32Bytes true 258 = leBytes32 258 ∧
      read32Val true (write32Bytes true 258) = 258 ∧
      write64Bytes true 258 = leBytes64 258 ∧
      read64Val true (write64Bytes true 258) = 258 :=
  c4_littleEndian_codec true 258 258 (by decide) (by decide)

/-- C5, counterexample.  An 8-byte key on a `keySize = 8` tree (limit
`keySize - 1 = 7`) is not rejected: `put` returns `true` (a normal insertion,
no `InvalidKey` error exists anywhere in the code) and the key is observably
stored — `get` finds it. -/
theorem c5_invalidKey_refuted :
    (put 30 (mkBTree 8 2) [97, 97, 97, 97, 97, 97, 97, 97] 7).1 = true ∧
      get 30 (put 30 (mkBTree 8 2) [97, 97, 97, 97, 97, 97, 97, 97] 7).2
        [97, 97, 97, 97, 97, 97, 97, 97] = some 7 := by
  decide

/-- C5, amended.  Keys longer than `keySize - 1` are accepted without any
error: on a fresh `keySize = 8` tree, `put` of a key of length 8..127 returns
`true` and the on-disk slot stores the key truncated to its first 7 bytes;
empty keys are permitted (`put ""` works and `get ""` finds the value). -/
theorem c5_overlong_keys_accepted (k : Key) (v : Nat) (h1 : 8 ≤ k.length)
    (h2 : k.length ≤ 127) :
    (put 30 (mkBTree 8 2) k v).1 = true ∧
      ((put 30 (mkBTree 8 2) k v).2.disk 0).keys = [(k.map (· % 256)).take 7] ∧
      (put 30 (mkBTree 8 2) ([] : Key) v).1 = true ∧
      get 30 (put 30 (mkBTree 8 2) ([] : Key) v).2 [] = some (v % 2 ^ 64) := by
  refine ⟨rfl, ?_, rfl, rfl⟩
  have hd : ((put 30 (mkBTree 8 2) k v).2.disk 0).keys =
      [roundtripKey 8 (k.map (· % 256))] := rfl
  rw [hd, roundtripKey_overlong (k.map (· % 256)) (by simpa using h1) (by simpa using h2)]

/-- C5, amended, witness: the 8-byte key `"aaaaaaaa"` with value 7. -/
theorem c5_overlong_keys_accepted_witness :
    (put 30 (mkBTree 8 2) [97, 97, 97, 97, 97, 97, 97, 97] 7).1 = true ∧
      ((put 30 (mkBTree 8 2) [97, 97, 97, 97, 97, 97, 97, 97] 7).2.disk 0).keys =
        [([97, 97, 97, 97, 97, 97, 97, 97].map (· % 256)).take 7] ∧
      (put 30 (mkBTree 8 2) ([] : Key) 7).1 = true ∧
      get 30 (put 30 (mkBTree 8 2) ([] : Key) 7).2 [] = some (7 % 2 ^ 64) :=
  c5_overlong_keys_accepted [97, 97, 97, 97, 97, 97, 97, 97] 7 (by decide) (by decide)

/-- C9.  The claimed file-length invariant fails immediately after creating a
fresh tree (`keySize = 8`, `degree = 2`): `writeHeader` and `writeNode` of the
empty root write only 16 + 16 bytes, so the file is 32 bytes long, while
`16 + nc * nodeSize` is at least 96 for every `nc ≥ 1`.  (The code's own
assertion `(end - begin) % nodeSize() == 0` inside `IDrive::nodeCount` fails
on reopening such a file.) -/
theorem c9_fileLength_wrong_at_creation :
    (mkBTree 8 2).fileLen = 32 ∧ nodeSize (mkBTree 8 2).header = 80 ∧
      ¬ specFileLength (mkBTree 8 2) := by
  refine ⟨rfl, rfl, ?_⟩
  rintro ⟨nc, h1, h2⟩
  rw [show (mkBTree 8 2).fileLen = 32 from rfl,
    show nodeSize (mkBTree 8 2).header = 80 from rfl] at h2
  simp only [headerSize] at h2
  omega

/-- C10.  Removing an absent key can change `get` on another key: in
`stC10pre` the earlier in-memory-only overwrite of `"b"`'s value to 99 is
invisible (`get b = 2` from stale disk), but `remove "z"` — which correctly
returns `none` and leaves `size` unchanged — merges the cached root's
separator (with its in-memory value 99) into a child and then collapses the
root, flushing 99 to disk: afterwards `get b = 99`. -/
theorem c10_failed_remove_changes_mapping :
    get 30 stC10pre [98] = some 2 ∧
      (remove 30 stC10pre [122]).1 = none ∧
      size (remove 30 stC10pre [122]).2 = size stC10pre ∧
      get 30 (remove 30 stC10pre [122]).2 [98] = some 99 := by
  decide

/-- With `keySize` a multiple of 8 (asserted by the constructor), `nodeSize`
is a multiple of 8, so the `nodeSize / 8` zero words appended by `pushNode`
are exactly one node-sized block. -/
theorem nodeSize_eight_dvd (h : Header) (h8 : h.keySize % 8 = 0) :
    8 * (nodeSize h / 8) = nodeSize h := by
  obtain ⟨m, hm⟩ := Nat.dvd_of_mod_eq_zero h8
  have key : nodeSize h = 8 * (2 + h.degree + (m + 1) * maxKeys h) := by
    simp only [nodeSize, maxChildren, hm]
    ring
  rw [key, Nat.mul_div_cancel_left _ (by norm_num)]

/-- C6.  The free-node stack allocator, on any state whose header has the
constructor-asserted `keySize % 8 = 0` and whose file already holds at least
the 32 bytes written at creation: (a) `popFreeNode` on an empty stack first
grows the file by exactly one zeroed node-sized block, increments the
in-memory node count and pushes the new index, then pops and returns that
same index (leaving the stack empty again); (b) after any `pushFreeNode i`,
the next `popFreeNode` returns exactly `i` without growing the file, and
restores the previous stack depth — the stack is LIFO, so a freed index is
the first one reused. -/
theorem c6_freeStack_lifo (st : BState) (i : Nat)
    (h8 : st.header.keySize % 8 = 0) (hfl : 32 ≤ st.fileLen) :
    (st.header.freeNodeCount = 0 →
      (popFreeNode st).1 = st.nodeCount ∧
        (popFreeNode st).2.nodeCount = st.nodeCount + 1 ∧
        (popFreeNode st).2.fileLen = st.fileLen + nodeSize st.header ∧
        (popFreeNode st).2.header.freeNodeCount = 0 ∧
        ((popFreeNode st).2.disk st.nodeCount).keys = [] ∧
        ((popFreeNode st).2.disk st.nodeCount).kids = []) ∧
      (popFreeNode (pushFreeNode st i)).1 = i ∧
      (popFreeNode (pushFreeNode st i)).2.header.freeNodeCount = st.header.freeNodeCount ∧
      (popFreeNode (pushFreeNode st i)).2.nodeCount = st.nodeCount := by
  constructor
  · intro hc
    unfold popFreeNode pushNode pushFreeNode writeHeader
    simp only [hc, reduceIte, one_mul, Nat.add_sub_cancel, Nat.add_zero, zeroNode,
      nodeSize_eight_dvd st.header h8, nodePos, headerSize, apply_ite Node.keys,
      apply_ite Node.kids, ite_self, and_true, true_and]
    omega
  · unfold popFreeNode pushFreeNode writeHeader
    simp only [Nat.add_sub_cancel, Nat.succ_ne_zero, reduceIte, and_true, true_and]

/-- C6, witness: a fresh tree (`keySize = 8`, `degree = 2`, empty stack) and
the pushed index 5. -/
theorem c6_freeStack_lifo_witness :
    ((mkBTree 8 2).header.freeNodeCount = 0 →
      (popFreeNode (mkBTree 8 2)).1 = (mkBTree 8 2).nodeCount ∧
        (popFreeNode (mkBTree 8 2)).2.nodeCount = (mkBTree 8 2).nodeCount + 1 ∧
        (popFreeNode (mkBTree 8 2)).2.fileLen =
          (mkBTree 8 2).fileLen + nodeSize (mkBTree 8 2).header ∧
        (popFreeNode (mkBTree 8 2)).2.header.freeNodeCount = 0 ∧
        ((popFreeNode (mkBTree 8 2)).2.disk (mkBTree 8 2).nodeCount).keys = [] ∧
        ((popFreeNode (mkBTree 8 2)).2.disk (mkBTree 8 2).nodeCount).kids = []) ∧
      (popFreeNode (pushFreeNode (mkBTree 8 2) 5)).1 = 5 ∧
      (popFreeNode (pushFreeNode (mkBTree 8 2) 5)).2.header.freeNodeCount =
        (mkBTree 8 2).header.freeNodeCount ∧
      (popFreeNode (pushFreeNode (mkBTree 8 2) 5)).2.nodeCount = (mkBTree 8 2).nodeCount :=
  c6_freeStack_lifo (mkBTree 8 2) 5 (by decide) (by decide)

/-- Length of `eraAt`: one shorter in range, unchanged out of range. -/
theorem eraAt_length {α : Type} (i : Nat) (l : List α) :
    (eraAt i l).length = if i < l.length then l.length - 1 else l.length := by
  induction l generalizing i with
  | nil => simp [eraAt]
  | cons x l ih =>
    cases i with
    | zero => simp [eraAt]
    | succ i =>
      simp only [eraAt, List.length_cons, ih]
      split <;> split <;> omega

/-- The parent node returned by `borrowFromLeft`: the separator slot
`index - 1` is overwritten with the left sibling's last pair; keys, children
counts are unchanged. -/
theorem borrowFromLeft_fst (st : BState) (node child lc : Node) (index : Nat) :
    (borrowFromLeft st node child lc index).1 =
      { node with
        keys := node.keys.set (index - 1) (lc.keys.getD (lc.keys.length - 1) [])
        values := node.values.set (index - 1) (lc.values.getD (lc.values.length - 1) 0) } := rfl

/-- The parent node returned by `borrowFromRight`. -/
theorem borrowFromRight_fst (st : BState) (node child rc : Node) (index : Nat) :
    (borrowFromRight st node child rc index).1 =
      { node with
        keys := node.keys.set index (rc.keys.headD [])
        values := node.values.set index (rc.values.headD 0) } := rfl

/-- The parent node returned by `mergeChildren`: the separator at `index`
and the child pointer at `index + 1` are removed. -/
theorem mergeChildren_fst (st : BState) (node l r : Node) (index : Nat) :
    (mergeChildren st node l r index).1 =
      { node with
        keys := eraAt index node.keys
        values := eraAt index node.values
        kids := eraAt (index + 1) node.kids } := rfl

/-- The function `mergeChildren` preserves the child-count relation of the parent. -/
theorem mergeChildren_shape (st : BState) (node l r : Node) (index : Nat)
    (h : node.kids.length = node.keys.length + 1) :
    ((mergeChildren st node l r index).1.kids.length =
        (mergeChildren st node l r index).1.keys.length + 1) ∧
      (mergeChildren st node l r index).1.index = node.index := by
  rw [mergeChildren_fst]
  refine ⟨?_, rfl⟩
  simp only [eraAt_length]
  split <;> split <;> omega

/-- The function `growChild` preserves the child-count relation and index of the parent
node in all three of its cases. -/
theorem growChild_shape (st : BState) (node child : Node) (index : Nat)
    (h : node.kids.length = node.keys.length + 1) :
    ((growChild st node child index).1.kids.length =
        (growChild st node child index).1.keys.length + 1) ∧
      (growChild st node child index).1.index = node.index := by
  by_cases hL : 0 < index <;> by_cases hR : index < node.kids.length - 1 <;>
    simp only [growChild, hL, hR, reduceIte, true_and, false_and] <;>
    repeat' split
  all_goals
    first
    | (rw [borrowFromLeft_fst]; exact ⟨by simp [h], rfl⟩)
    | (rw [borrowFromRight_fst]; exact ⟨by simp [h], rfl⟩)
    | exact mergeChildren_shape _ _ _ _ _ h

/-- The function `removeKey` preserves the leaf-or-child-count shape of the node it is
called on, and that node's index. -/
theorem removeKey_shape (fuel : Nat) (st : BState) (node : Node) (key : Key)
    (h : nodeWF node) :
    nodeWF (removeKey st node key fuel).2.1 ∧
      (removeKey st node key fuel).2.1.index = node.index := by
  induction fuel generalizing st node with
  | zero => exact ⟨h, rfl⟩
  | succ fuel ih =>
    rcases hfk : findKeyIndex node key with ⟨hasKey, index⟩
    by_cases hleaf : node.kids = []
    · cases hasKey with
      | true =>
        simp only [removeKey, hfk, hleaf, reduceIte, removeNodeKey, nodeWF]
        refine ⟨Or.inl ?_, ?_⟩ <;> simp [hleaf]
      | false =>
        simp only [removeKey, hfk, hleaf, reduceIte]
        exact ⟨h, rfl⟩
    · have hlen : node.kids.length = node.keys.length + 1 := h.resolve_left hleaf
      simp only [removeKey, hfk, hleaf, reduceIte]
      by_cases hgrow :
          (readNode st (node.kids.getD index 0)).keys.length ≤ minKeys st.header
      · simp only [hgrow, reduceIte]
        rcases hg : growChild st node (readNode st (node.kids.getD index 0)) index
          with ⟨node1, st1⟩
        have hs := growChild_shape st node (readNode st (node.kids.getD index 0)) index hlen
        rw [hg] at hs
        have h2 := ih st1 node1 (Or.inr hs.1)
        exact ⟨h2.1, h2.2.trans hs.2⟩
      · simp only [hgrow, reduceIte]
        cases hasKey with
        | true =>
          rcases hm : removeMax st (readNode st (node.kids.getD index 0)) fuel
            with ⟨kv, cn, st1⟩
          simp only [hm, reduceIte, nodeWF]
          refine ⟨Or.inr ?_, ?_⟩ <;> simp [hlen]
        | false =>
          rcases hr : removeKey st (readNode st (node.kids.getD index 0)) key fuel
            with ⟨r, cn, st1⟩
          simp only [hr, reduceIte]
          exact ⟨h, rfl⟩

/-- C7.  Root collapse after a top-level remove: starting from any state
whose cached root has index 0 and satisfies the per-node shape invariant, if
`removeKey` leaves the root with no keys but with children, then the root has
exactly one child `c`, and the full `remove` (modelled by `removeTop`)
finishes by loading `c`'s keys, values and children into the cached root,
writing the root slot (slot 0 then holds `c`'s values and children), pushing
`c` onto the free stack (depth grows by one and the new top cell holds `c`),
and returning `removeKey`'s result unchanged. -/
theorem c7_rootCollapse (st : BState) (key : Key) (fuel : Nat)
    (hidx : st.root.index = 0) (hwf : nodeWF st.root)
    (hkeys : (removeKey st st.root key fuel).2.1.keys = [])
    (hkids : (removeKey st st.root key fuel).2.1.kids ≠ []) :
    ∃ c, (removeKey st st.root key fuel).2.1.kids = [c] ∧
      (removeTop st key fuel).2.root.keys =
        ((removeKey st st.root key fuel).2.2.disk c).keys ∧
      (removeTop st key fuel).2.root.values =
        ((removeKey st st.root key fuel).2.2.disk c).values ∧
      (removeTop st key fuel).2.root.kids =
        ((removeKey st st.root key fuel).2.2.disk c).kids ∧
      ((removeTop st key fuel).2.disk 0).values =
        ((removeKey st st.root key fuel).2.2.disk c).values ∧
      ((removeTop st key fuel).2.disk 0).kids =
        ((removeKey st st.root key fuel).2.2.disk c).kids ∧
      (removeTop st key fuel).2.header.freeNodeCount =
        (removeKey st st.root key fuel).2.2.header.freeNodeCount + 1 ∧
      ((removeTop st key fuel).2.disk
        (1 + (removeKey st st.root key fuel).2.2.header.freeNodeCount)).freeNode = c ∧
      (removeTop st key fuel).1 = (removeKey st st.root key fuel).1 := by
  have hshape := removeKey_shape fuel st st.root key hwf
  rcases hrk : removeKey st st.root key fuel with ⟨res, root1, st1⟩
  rw [hrk] at hshape hkeys hkids
  simp only at hshape hkeys hkids
  have hone : root1.kids.length = 1 := by
    rcases hshape.1 with h0 | h1
    · exact absurd h0 hkids
    · rw [hkeys] at h1
      simpa using h1
  obtain ⟨c, hc⟩ : ∃ c, root1.kids = [c] := by
    cases hk : root1.kids with
    | nil => exact absurd hk hkids
    | cons a l =>
      rw [hk] at hone
      simp only [List.length_cons, Nat.add_left_eq_self, List.length_eq_zero] at hone
      exact ⟨a, by rw [hone]⟩
  have hidx1 : root1.index = 0 := hshape.2.trans hidx
  have hslot : ¬ ((0 : Nat) = 1 + st1.header.freeNodeCount) := by omega
  refine ⟨c, hc, ?_⟩
  simp only [removeTop, hrk, rootCollapse, hidx1, hkeys, hc, readNode, writeNode,
    pushFreeNode, writeHeader, List.getD_cons_zero, ne_eq, reduceCtorEq,
    not_false_eq_true, and_true, and_self, reduceIte, hslot]

/-- C8.  The ordering invariant is not preserved by every sequence of put
operations: after putting four distinct 8-byte keys on a `keySize = 8` tree
(which the spec says must be rejected with `InvalidKey`, but the code
accepts, see C5), the split writes them to disk truncated to the identical
7-byte key; leaf slot 2, a child of the root (`kids = [1, 2]`), then holds
two *equal* adjacent keys — not strictly increasing. -/
theorem c8_ordering_violated :
    stC8pre.root.kids = [1, 2] ∧
      (stC8pre.disk 2).keys =
        [[97, 97, 97, 97, 97, 97, 97], [97, 97, 97, 97, 97, 97, 97]] ∧
      strictlyIncreasing (stC8pre.disk 2).keys = false := by
  decide

/-- C7, witness: `stC7pre` (root `["b"]` with two minimal leaves) and
`remove "c"`, whose merge empties the root and triggers the collapse. -/
theorem c7_rootCollapse_witness :
    ∃ c, (removeKey stC7pre stC7pre.root [99] 30).2.1.kids = [c] ∧
      (removeTop stC7pre [99] 30).2.root.keys =
        ((removeKey stC7pre stC7pre.root [99] 30).2.2.disk c).keys ∧
      (removeTop stC7pre [99] 30).2.root.values =
        ((removeKey stC7pre stC7pre.root [99] 30).2.2.disk c).values ∧
      (removeTop stC7pre [99] 30).2.root.kids =
        ((removeKey stC7pre stC7pre.root [99] 30).2.2.disk c).kids ∧
      ((removeTop stC7pre [99] 30).2.disk 0).values =
        ((removeKey stC7pre stC7pre.root [99] 30).2.2.disk c).values ∧
      ((removeTop stC7pre [99] 30).2.disk 0).kids =
        ((removeKey stC7pre stC7pre.root [99] 30).2.2.disk c).kids ∧
      (removeTop stC7pre [99] 30).2.header.freeNodeCount =
        (removeKey stC7pre stC7pre.root [99] 30).2.2.header.freeNodeCount + 1 ∧
      ((removeTop stC7pre [99] 30).2.disk
        (1 + (removeKey stC7pre stC7pre.root [99] 30).2.2.header.freeNodeCount)).freeNode = c ∧
      (removeTop stC7pre [99] 30).1 = (removeKey stC7pre stC7pre.root [99] 30).1 :=
  c7_rootCollapse stC7pre [99] 30 (by decide) (Or.inr (by decide)) (by decide) (by decide)

end BTree
